import Mathlib

/-!
Verification of `EnvsCollectionService`
(`src/client/pythonEnvironments/base/locators/composite/envsCollectionService.ts`)
and the logging facade (`src/client/logging/...`, the second file of the bundle).

The TypeScript code runs on a single-threaded event loop: every synchronous
stretch of code between two suspension points (`await`, promise-handler entry)
executes atomically.  The embedding below therefore models

  * the cache contract (`IEnvsCollectionCache`, whose implementation is not
    part of this bundle) from the spec's description of its operations;
  * `addEnvsToCacheFromIterator` as a deterministic step machine driven by an
    explicit schedule of iterator events (main-sequence yields, the end of the
    main sequence, and side-channel `onUpdated` events);
  * the service-level promise bookkeeping (`refreshPromises`,
    `triggerRefresh`, `startRefresh`'s `.then/.catch` settlement handlers)
    with explicit promise identifiers, so that distinct promise objects of
    the source stay distinct here;
  * the `triggerNewRefresh` chaining installed by the constructor as a small
    transition system with a nondeterministic scheduler.
-/

namespace EnvsCollection

/-- A discovered environment record (`PythonEnvInfo`): an opaque value with a
resolvable identity (`id`, the executable path) and an opaque payload (`ver`)
so that two distinct revisions of the same identity can be told apart. -/
structure Env where
  id : String
  ver : Nat
deriving DecidableEq, Repr

/-- A query token (`PythonLocatorQuery`).  The service only ever compares
queries for equality (as `Map` keys); their filtering semantics is the
external `getQueryFilter` collaborator, which the model takes as a
parameter. -/
abbrev Query := Nat

/-- The cache's contents: records keyed by identity.  `IEnvsCollectionCache`'s
implementation is not part of this bundle; the operations below are modelled
from the spec's cache contract (§4.2). -/
abbrev Cache := List Env

/-- Modelled from the spec: `getEnv(identity)` is a point lookup by
identity. -/
def Cache.getEnv (c : Cache) (path : String) : Option Env :=
  c.find? (fun r => r.id == path)

/-- Modelled from the spec: `getAllEnvs()` is a full synchronous snapshot. -/
def Cache.getAllEnvs (c : Cache) : List Env :=
  c

/-- Modelled from the spec: `addEnv(record)` inserts or overwrites by
identity. -/
def Cache.addEnv (c : Cache) (e : Env) : Cache :=
  if c.any (fun r => r.id == e.id) then
    c.map (fun r => if r.id == e.id then e else r)
  else
    c ++ [e]

/-- Modelled from the spec: `updateEnv(oldRecord?, newRecord?)` applies a
revision.  It must tolerate `oldRecord` being `undefined` (position not yet
seen): that case is a defensive skip.  If `oldRecord` is known and
`newRecord` is provided, the entry with `oldRecord`'s identity is replaced;
if `newRecord` is omitted, that entry is treated as removed. -/
def Cache.updateEnv (old? : Option Env) (new? : Option Env) (c : Cache) : Cache :=
  match old? with
  | none => c
  | some old =>
    if c.any (fun r => r.id == old.id) then
      match new? with
      | some n => c.map (fun r => if r.id == old.id then n else r)
      | none => c.filter (fun r => r.id != old.id)
    else c

/-! ## The drain: `addEnvsToCacheFromIterator`

The iterator (`IPythonEnvsIterator`) delivers two things that interleave on
the event loop:

  * main-sequence yields, consumed by `for await (const env of iterator)`;
  * optional `onUpdated` events, each either `null` (the closing sentinel)
    or `{ index, update? }`.

A `DrainEvent` schedule records one such interleaving; `mainDone` marks the
point where the `for await` loop observes the end of the main sequence.  The
`onUpdated` handler is an async arrow function containing no `await`, so it
runs atomically; `drainStep` executes it as one step.
-/

/-- An `onUpdated` payload `{ index, update? }`: `index` is a 0-based position
among records already yielded on the main sequence, `update` is a replacement
record or absent (removal). -/
structure UpdateEvent where
  index : Nat
  update : Option Env
deriving DecidableEq, Repr

/-- One event-loop delivery during a drain. -/
inductive DrainEvent where
  /-- The main sequence yields a record (one `for await` iteration body). -/
  | yield (e : Env)
  /-- The main sequence is exhausted (the `for await` loop exits). -/
  | mainDone
  /-- An `onUpdated` event; `none` embeds the `null` closing sentinel. -/
  | upd (ev : Option UpdateEvent)
deriving DecidableEq, Repr

/-- Audit record of one `cache.updateEnv(seen[event.index], event.update)`
call made by the `onUpdated` handler. -/
structure RevApply where
  index : Nat
  /-- `seen[event.index]` at call time (`none` embeds `undefined`). -/
  key : Option Env
  update : Option Env
  /-- How many main-sequence records had been yielded when this call ran. -/
  yieldedSoFar : Nat
  cacheBefore : Cache
  cacheAfter : Cache
deriving DecidableEq, Repr

/-- The local state of one `addEnvsToCacheFromIterator` call, together with
the cache it mutates.  `seen` is a JavaScript array, so it may contain holes
(`none`) created by out-of-range assignments.  `pending` is `state.pending`;
the `onUpdated` handler increments and decrements it with no suspension point
in between, so it is observed unchanged at every event boundary.
`updatesResolved` records whether `updatesDone` has been resolved. -/
structure DrainState where
  seen : List (Option Env)
  cache : Cache
  mainCount : Nat
  mainDone : Bool
  chanClosed : Bool
  pending : Nat
  updatesResolved : Bool
  applies : List RevApply
deriving DecidableEq, Repr

/-- Initial drain state: `seen = []`, `state = { done: false, pending: 0 }`;
when the iterator exposes no `onUpdated` channel, `updatesDone` is resolved
immediately. -/
def initDrain (hasChannel : Bool) (c0 : Cache) : DrainState :=
  { seen := []
    cache := c0
    mainCount := 0
    mainDone := false
    chanClosed := false
    pending := 0
    updatesResolved := !hasChannel
    applies := [] }

/-- JavaScript array assignment `a[i] = x`: in-range writes replace, and an
out-of-range write extends the array with holes up to index `i`. -/
def listWrite (l : List (Option Env)) (i : Nat) (x : Env) : List (Option Env) :=
  if i < l.length then
    l.set i (some x)
  else
    (l ++ List.replicate (i - l.length) none) ++ [some x]

/-- `if (state.done && state.pending === 0) { updatesDone.resolve(); }` —
this check runs at the end of every `onUpdated` handler invocation. -/
def checkResolve (s : DrainState) : DrainState :=
  if s.chanClosed ∧ s.pending = 0 then { s with updatesResolved := true } else s

/-- One event-loop step of `addEnvsToCacheFromIterator`:

  * `yield e`: one `for await` iteration — `seen.push(env);
    this.cache.addEnv(env);` (no yields occur after the loop has exited);
  * `mainDone`: the loop exits;
  * `upd ev`: one `onUpdated` handler invocation.  After the `null` sentinel
    the listener has been disposed, so later events are not delivered.  A
    non-sentinel event calls `this.cache.updateEnv(seen[event.index],
    event.update)` and then, `if (event.update)`, assigns
    `seen[event.index] = event.update`. -/
def drainStep (hasChannel : Bool) (s : DrainState) : DrainEvent → DrainState
  | .yield e =>
    if s.mainDone then s
    else
      { s with
        seen := s.seen ++ [some e]
        cache := s.cache.addEnv e
        mainCount := s.mainCount + 1 }
  | .mainDone => { s with mainDone := true }
  | .upd ev =>
    if ¬hasChannel then s
    else if s.chanClosed then s
    else
      match ev with
      | none => checkResolve { s with chanClosed := true }
      | some u =>
        let key := s.seen.getD u.index none
        let cache' := Cache.updateEnv key u.update s.cache
        let seen' := match u.update with
          | some x => listWrite s.seen u.index x
          | none => s.seen
        checkResolve
          { s with
            cache := cache'
            seen := seen'
            applies := s.applies ++
              [{ index := u.index
                 key := key
                 update := u.update
                 yieldedSoFar := s.mainCount
                 cacheBefore := s.cache
                 cacheAfter := cache' }] }

/-- Run a drain over a schedule of event-loop deliveries. -/
def runDrain (hasChannel : Bool) (s : DrainState) : List DrainEvent → DrainState
  | [] => s
  | e :: rest => runDrain hasChannel (drainStep hasChannel s e) rest

/-- The combined completion condition: `await updatesDone.promise` has been
passed and the `for await` loop has exited, so control can reach
`validateCache`. -/
def drainCompleted (s : DrainState) : Bool :=
  s.mainDone && s.updatesResolved

/-- The observable outcome of `addEnvsToCacheFromIterator` followed by
`startRefresh`'s settlement handlers.  `refreshResult` is the fate of the
refresh's deferred completion signal: `none` when the drain never completes
(stuck awaiting `updatesDone`), `some true` when it resolves, `some false`
when it rejects. -/
structure DrainOutcome where
  st : DrainState
  validateCalled : Bool
  flushCalled : Bool
  /-- The (discarded) result of `this.cache.flush().ignoreErrors()`. -/
  flushResult : Option Bool
  refreshResult : Option Bool
deriving DecidableEq, Repr

/-- Full drain: process the schedule, then `await updatesDone.promise;
await this.cache.validateCache(); this.cache.flush().ignoreErrors();`.
`validateOk` and `flushOk` script the outcomes of the cache's `validateCache`
and `flush` calls. -/
def runDrainFull (hasChannel : Bool) (c0 : Cache) (sched : List DrainEvent)
    (validateOk flushOk : Bool) : DrainOutcome :=
  if drainCompleted (runDrain hasChannel (initDrain hasChannel c0) sched) then
    if validateOk then
      { st := runDrain hasChannel (initDrain hasChannel c0) sched
        validateCalled := true
        flushCalled := true
        flushResult := some flushOk
        refreshResult := some true }
    else
      { st := runDrain hasChannel (initDrain hasChannel c0) sched
        validateCalled := true
        flushCalled := false
        flushResult := none
        refreshResult := some false }
  else
    { st := runDrain hasChannel (initDrain hasChannel c0) sched
      validateCalled := false
      flushCalled := false
      flushResult := none
      refreshResult := none }

/-! ### Drain invariants -/

theorem drainStep_pending (h : Bool) (s : DrainState) (e : DrainEvent) :
    (drainStep h s e).pending = s.pending := by
  cases e with
  | yield e => simp only [drainStep]; split <;> rfl
  | mainDone => rfl
  | upd ev =>
    simp only [drainStep]
    split
    · rfl
    · split
      · rfl
      · cases ev with
        | none => simp only [checkResolve]; split <;> rfl
        | some u => simp only [checkResolve]; split <;> rfl

theorem runDrain_pending (h : Bool) (s : DrainState) (l : List DrainEvent) :
    (runDrain h s l).pending = s.pending := by
  induction l generalizing s with
  | nil => rfl
  | cons e rest ih => rw [runDrain, ih, drainStep_pending]

theorem drainStep_mainDone (h : Bool) (s : DrainState) (e : DrainEvent) :
    (drainStep h s e).mainDone = (s.mainDone || e == DrainEvent.mainDone) := by
  cases e with
  | yield e => simp only [drainStep]; split <;> simp_all
  | mainDone => simp [drainStep]
  | upd ev =>
    simp only [drainStep]
    split
    · simp
    · split
      · simp
      · cases ev with
        | none => simp only [checkResolve]; split <;> simp
        | some u => simp only [checkResolve]; split <;> simp

theorem runDrain_mainDone (h : Bool) (s : DrainState) (l : List DrainEvent) :
    (runDrain h s l).mainDone = true ↔
      (s.mainDone = true ∨ DrainEvent.mainDone ∈ l) := by
  induction l generalizing s with
  | nil => simp [runDrain]
  | cons e rest ih =>
    rw [runDrain, ih, drainStep_mainDone]
    cases e <;> simp_all [or_assoc]

theorem drainStep_resolved_inv (h : Bool) (s : DrainState) (e : DrainEvent)
    (hp : s.pending = 0)
    (hc : s.chanClosed = true → s.updatesResolved = true) :
    (drainStep h s e).chanClosed = true → (drainStep h s e).updatesResolved = true := by
  cases e with
  | yield e => simp only [drainStep]; split <;> simp_all
  | mainDone => simpa [drainStep] using hc
  | upd ev =>
    simp only [drainStep]
    split
    · exact hc
    · split
      · exact hc
      · cases ev with
        | none => simp [checkResolve, hp]
        | some u =>
          simp only [checkResolve]
          split <;> simp_all

theorem updatesResolved_iff (h : Bool) (s : DrainState) (l : List DrainEvent)
    (hp : s.pending = 0)
    (hc : s.chanClosed = true → s.updatesResolved = true) :
    (runDrain h s l).updatesResolved = true ↔
      (s.updatesResolved = true ∨ (h = true ∧ DrainEvent.upd none ∈ l)) := by
  induction l generalizing s with
  | nil => simp [runDrain]
  | cons e rest ih =>
    rw [runDrain]
    rw [ih (drainStep h s e) (by rw [drainStep_pending]; exact hp)
      (drainStep_resolved_inv h s e hp hc)]
    cases e with
    | yield a =>
      have hres : (drainStep h s (DrainEvent.yield a)).updatesResolved = s.updatesResolved := by
        simp only [drainStep]; split <;> rfl
      rw [hres]
      simp
    | mainDone =>
      simp [drainStep]
    | upd ev =>
      simp only [drainStep]
      by_cases hh : h = true
      · simp only [hh]
        split
        · simp_all
        · rename_i hclosed
          split
          · rename_i hcc
            have := hc hcc
            simp_all
          · rename_i hcc
            cases ev with
            | none =>
              have : (checkResolve { s with chanClosed := true }).updatesResolved = true := by
                simp [checkResolve, hp]
              simp_all
            | some u =>
              have hres :
                  (checkResolve
                    { s with
                      cache := Cache.updateEnv (s.seen.getD u.index none) u.update s.cache
                      seen := match u.update with
                        | some x => listWrite s.seen u.index x
                        | none => s.seen
                      applies := s.applies ++
                        [{ index := u.index
                           key := s.seen.getD u.index none
                           update := u.update
                           yieldedSoFar := s.mainCount
                           cacheBefore := s.cache
                           cacheAfter :=
                             Cache.updateEnv (s.seen.getD u.index none) u.update s.cache }]
                     }).updatesResolved = s.updatesResolved := by
                simp [checkResolve, hcc]
              simp_all
      · have hh' : h = false := by simpa using hh
        subst hh'
        simp_all

/-- `drainCompleted` after a whole schedule, from the initial state: the drain
completes exactly when the main sequence was exhausted and, if a revision
channel exists, its closing sentinel has been delivered. -/
theorem drainCompleted_iff (h : Bool) (c0 : Cache) (sched : List DrainEvent) :
    drainCompleted (runDrain h (initDrain h c0) sched) = true ↔
      (DrainEvent.mainDone ∈ sched ∧
        (h = true → DrainEvent.upd none ∈ sched)) := by
  unfold drainCompleted
  rw [Bool.and_eq_true, runDrain_mainDone,
    updatesResolved_iff h (initDrain h c0) sched rfl (by simp [initDrain])]
  cases h <;> simp [initDrain]

theorem runDrainFull_st (h : Bool) (c0 : Cache) (sched : List DrainEvent) (v fl : Bool) :
    (runDrainFull h c0 sched v fl).st = runDrain h (initDrain h c0) sched := by
  unfold runDrainFull
  split
  · split <;> rfl
  · rfl

theorem runDrainFull_validateCalled (h : Bool) (c0 : Cache) (sched : List DrainEvent)
    (v fl : Bool) :
    (runDrainFull h c0 sched v fl).validateCalled =
      drainCompleted (runDrain h (initDrain h c0) sched) := by
  unfold runDrainFull
  split
  · rename_i hcomp; split <;> simp [hcomp]
  · rename_i hcomp; simp_all

theorem runDrainFull_flushCalled (h : Bool) (c0 : Cache) (sched : List DrainEvent)
    (v fl : Bool) :
    (runDrainFull h c0 sched v fl).flushCalled =
      (drainCompleted (runDrain h (initDrain h c0) sched) && v) := by
  unfold runDrainFull
  split
  · rename_i hcomp; split <;> simp_all
  · rename_i hcomp; simp_all

theorem runDrainFull_refreshResult (h : Bool) (c0 : Cache) (sched : List DrainEvent)
    (v fl : Bool) :
    (runDrainFull h c0 sched v fl).refreshResult =
      (if drainCompleted (runDrain h (initDrain h c0) sched) then some v else none) := by
  unfold runDrainFull
  split
  · rename_i hcomp; split <;> simp_all
  · rename_i hcomp; simp_all

/-- Claim C3. For every drain, the combined completion signal — and with it the
`validateCache`/`flush` phase — is reached exactly when the main sequence is
exhausted and, if the iterator exposes a revision side-channel, the channel's
closing sentinel has been received; `state.pending` is zero at every event
boundary (the `onUpdated` handler's increment/decrement pair runs without a
suspension point).  Without a side-channel, completion needs exactly
main-sequence exhaustion.  Validation and flush happen only once the combined
condition holds. -/
theorem drain_completion_condition (h : Bool) (c0 : Cache) (sched : List DrainEvent)
    (v fl : Bool) :
    ((runDrainFull h c0 sched v fl).validateCalled = true ↔
      (DrainEvent.mainDone ∈ sched ∧ (h = true → DrainEvent.upd none ∈ sched)))
    ∧ (h = false →
        ((runDrainFull h c0 sched v fl).validateCalled = true ↔
          DrainEvent.mainDone ∈ sched))
    ∧ (runDrainFull h c0 sched v fl).st.pending = 0
    ∧ ((runDrainFull h c0 sched v fl).validateCalled = true →
        drainCompleted (runDrainFull h c0 sched v fl).st = true)
    ∧ ((runDrainFull h c0 sched v fl).flushCalled = true →
        drainCompleted (runDrainFull h c0 sched v fl).st = true) := by
  refine ⟨?_, ?_, ?_, ?_, ?_⟩
  · rw [runDrainFull_validateCalled]
    exact drainCompleted_iff h c0 sched
  · intro hh
    rw [runDrainFull_validateCalled, drainCompleted_iff]
    simp [hh]
  · rw [runDrainFull_st, runDrain_pending]
    rfl
  · rw [runDrainFull_validateCalled, runDrainFull_st]
    exact fun hc => hc
  · rw [runDrainFull_flushCalled, runDrainFull_st]
    intro hc
    exact (Bool.and_eq_true _ _).mp hc |>.1

theorem drain_completion_condition_witness :
    (runDrainFull true [] [DrainEvent.mainDone, DrainEvent.upd none] true false).validateCalled
      = true :=
  (drain_completion_condition true [] [DrainEvent.mainDone, DrainEvent.upd none]
      true false).1.mpr ⟨by decide, fun _ => by decide⟩

/-- Claim C9. A flush failure never changes the fate of the refresh's completion
signal (the deferred resolves or rejects identically whether `flush` fails or
succeeds — its result is discarded by `.ignoreErrors()`), flush is invoked
only after the drain completed and `validateCache` succeeded, and a rejection
of the completion signal can only come from a `validateCache` failure, never
from flush. -/
theorem flush_isolation (h : Bool) (c0 : Cache) (sched : List DrainEvent)
    (v fl fl' : Bool) :
    ((runDrainFull h c0 sched v fl).refreshResult =
      (runDrainFull h c0 sched v fl').refreshResult)
    ∧ ((runDrainFull h c0 sched v fl).flushCalled = true →
        ((runDrainFull h c0 sched v fl).validateCalled = true ∧ v = true))
    ∧ ((runDrainFull h c0 sched v fl).refreshResult = some false → v = false) := by
  refine ⟨?_, ?_, ?_⟩
  · rw [runDrainFull_refreshResult, runDrainFull_refreshResult]
  · rw [runDrainFull_flushCalled, runDrainFull_validateCalled]
    intro hc
    have := (Bool.and_eq_true _ _).mp hc
    exact ⟨this.1, this.2⟩
  · rw [runDrainFull_refreshResult]
    split
    · intro hsome
      cases v
      · rfl
      · exact absurd hsome (by simp)
    · intro hsome
      exact absurd hsome (by simp)

theorem flush_isolation_witness :
    ((runDrainFull true [] [DrainEvent.mainDone, DrainEvent.upd none] true false).refreshResult =
      (runDrainFull true [] [DrainEvent.mainDone, DrainEvent.upd none] true true).refreshResult)
    ∧ ((runDrainFull true [] [DrainEvent.mainDone, DrainEvent.upd none] true
          true).validateCalled = true ∧ true = true) :=
  ⟨(flush_isolation true [] [DrainEvent.mainDone, DrainEvent.upd none] true false true).1,
    (flush_isolation true [] [DrainEvent.mainDone, DrainEvent.upd none] true true true).2.1
      (by decide)⟩

/-! ### Invalid revision indices (C7) -/

def envA : Env := { id := "a", ver := 0 }

def envB : Env := { id := "b", ver := 0 }

/-- A schedule in which the side-channel first sends a revision for position
5 while only one record has been yielded, and then a second revision for the
same position. -/
def schedInvalidIdx : List DrainEvent :=
  [DrainEvent.yield envA,
   DrainEvent.upd (some { index := 5, update := some envA }),
   DrainEvent.upd (some { index := 5, update := some envB }),
   DrainEvent.mainDone,
   DrainEvent.upd none]

/-- Claim C7, counterexample.  The claim states that the revision handler never
applies an update keyed by a record for a position that was never yielded on
the main sequence, and that invalid-index revisions cannot corrupt the cache.
On `schedInvalidIdx` the first out-of-range revision is skipped by the cache
(`seen[5]` is `undefined`) but its update is stored into `seen[5]`; the
second revision for index 5 is then applied keyed by that stored record —
position 5 was never yielded (`yieldedSoFar = 1`) — and it rewrites the
cache from `[envA]` to `[envB]`. -/
theorem invalid_revision_counterexample :
    ¬ (∀ a ∈ (runDrain true (initDrain true []) schedInvalidIdx).applies,
        a.key.isSome = true → a.index < a.yieldedSoFar)
    ∧ (runDrain true (initDrain true []) schedInvalidIdx).cache = [envB] := by
  constructor
  · decide
  · decide

theorem drainStep_applies_spec (h : Bool) (s : DrainState) (e : DrainEvent) :
    ∀ a ∈ (drainStep h s e).applies,
      a ∈ s.applies ∨ a.cacheAfter = Cache.updateEnv a.key a.update a.cacheBefore := by
  cases e with
  | yield x =>
    simp only [drainStep]
    split
    · exact fun a ha => Or.inl ha
    · exact fun a ha => Or.inl ha
  | mainDone => exact fun a ha => Or.inl ha
  | upd ev =>
    simp only [drainStep]
    split
    · exact fun a ha => Or.inl ha
    · split
      · exact fun a ha => Or.inl ha
      · cases ev with
        | none =>
          simp only [checkResolve]
          split
          · exact fun a ha => Or.inl ha
          · exact fun a ha => Or.inl ha
        | some u =>
          simp only [checkResolve]
          intro a ha
          have hmem : a ∈ s.applies ++
              [{ index := u.index
                 key := s.seen.getD u.index none
                 update := u.update
                 yieldedSoFar := s.mainCount
                 cacheBefore := s.cache
                 cacheAfter :=
                   Cache.updateEnv (s.seen.getD u.index none) u.update s.cache }] := by
            revert ha
            split <;> exact fun ha => ha
          rcases List.mem_append.mp hmem with hl | hr
          · exact Or.inl hl
          · rcases List.mem_singleton.mp hr with rfl
            exact Or.inr rfl

theorem runDrain_applies_spec (h : Bool) (s : DrainState) (l : List DrainEvent) :
    ∀ a ∈ (runDrain h s l).applies,
      a ∈ s.applies ∨ a.cacheAfter = Cache.updateEnv a.key a.update a.cacheBefore := by
  induction l generalizing s with
  | nil => exact fun a ha => Or.inl ha
  | cons e rest ih =>
    intro a ha
    rcases ih (drainStep h s e) a ha with hmem | hspec
    · exact drainStep_applies_spec h s e a hmem
    · exact Or.inr hspec

/-- Claim C7, amended.  Every `cache.updateEnv` call made by the revision
handler passes `seen[event.index]` as its key; when that position holds no
record (out of range or a hole), the key is `undefined` and the cache-contract
`updateEnv` leaves the cache unchanged, so such a revision is not directly
applied.  However, a revision carrying an update is written into `seen` at
its index even when out of range, so a later revision at such an index can be
applied keyed by a record that was never yielded on the main sequence and can
modify the cache. -/
theorem invalid_revision_skipped (h : Bool) (c0 : Cache) (sched : List DrainEvent) :
    (∀ a ∈ (runDrain h (initDrain h c0) sched).applies,
      a.key = none → a.cacheAfter = a.cacheBefore)
    ∧ (∃ sched' : List DrainEvent, ∃ a ∈ (runDrain true (initDrain true []) sched').applies,
        a.key.isSome = true ∧ a.yieldedSoFar ≤ a.index ∧ a.cacheAfter ≠ a.cacheBefore) := by
  constructor
  · intro a ha hkey
    rcases runDrain_applies_spec h (initDrain h c0) sched a ha with hmem | hspec
    · exact absurd hmem (by simp [initDrain])
    · rw [hspec, hkey]
      rfl
  · refine ⟨schedInvalidIdx,
      { index := 5
        key := some envA
        update := some envB
        yieldedSoFar := 1
        cacheBefore := [envA]
        cacheAfter := [envB] }, ?_, ?_, ?_, ?_⟩
    · decide
    · decide
    · decide
    · decide

theorem invalid_revision_skipped_witness :
    ({ index := 5
       key := none
       update := some envA
       yieldedSoFar := 1
       cacheBefore := [envA]
       cacheAfter := [envA] } : RevApply).cacheAfter = [envA] :=
  (invalid_revision_skipped true [] schedInvalidIdx).1
    { index := 5, key := none, update := some envA, yieldedSoFar := 1,
      cacheBefore := [envA], cacheAfter := [envA] }
    (by decide) (by decide)

/-! ## Service-level promise bookkeeping

`triggerRefresh`, `startRefresh`'s settlement handlers, `refreshPromises`,
`resolveEnv` and `getEnvs`.  Promises are identified by explicit `PId`s: the
source distinguishes `deferred.promise` (the tracked completion signal) from
the promise returned by the `async` function `startRefresh` itself (the value
`triggerRefresh` hands to the caller that started the drain), so the model
keeps both.  All of `triggerRefresh`/`startRefresh` up to the drain's first
suspension point is synchronous, so it is one atomic step here. -/

abbrev PId := Nat

inductive POutcome where
  | pending
  | fulfilled
  | rejected
deriving DecidableEq, Repr

/-- One started refresh: its query key, its tracked `deferred.promise`, and
the promise returned by the `async startRefresh` call. -/
structure Refresh where
  query : Option Query
  deferredP : PId
  chainP : PId
deriving DecidableEq, Repr

/-- JavaScript `Map.get`: first (and only) binding of the key. -/
def mapGet : List (Option Query × PId) → Option Query → Option PId
  | [], _ => none
  | (k', v') :: rest, k => if k' == k then some v' else mapGet rest k

/-- JavaScript `Map.set`: replace in place if present, else append. -/
def mapSet : List (Option Query × PId) → Option Query → PId → List (Option Query × PId)
  | [], k, v => [(k, v)]
  | (k', v') :: rest, k, v =>
    if k' == k then (k, v) :: rest else (k', v') :: mapSet rest k v

/-- JavaScript `Map.delete`: remove the binding of the key, if any. -/
def mapDelete : List (Option Query × PId) → Option Query → List (Option Query × PId)
  | [], _ => []
  | (k', v') :: rest, k => if k' == k then rest else (k', v') :: mapDelete rest k

/-- Promise store lookup; promises not in the store are pending. -/
def pLookup : List (PId × POutcome) → PId → POutcome
  | [], _ => POutcome.pending
  | (p', o) :: rest, p => if p' == p then o else pLookup rest p

/-- Settle (or create) a promise in the store. -/
def pSet : List (PId × POutcome) → PId → POutcome → List (PId × POutcome)
  | [], p, o => [(p, o)]
  | (p', o') :: rest, p, o =>
    if p' == p then (p, o) :: rest else (p', o') :: pSet rest p o

/-- The service's bookkeeping state: the `refreshPromises` tracking map, the
states of all created promises, a fresh-id counter, and observation logs of
`locator.iterEnvs` calls, `refreshStarted` firings and started refreshes. -/
structure SvcState where
  refreshPromises : List (Option Query × PId)
  promiseStates : List (PId × POutcome)
  nextP : PId
  iterEnvsCalls : List (Option Query)
  refreshStartedFires : Nat
  refreshes : List Refresh
deriving DecidableEq, Repr

def initSvc : SvcState :=
  { refreshPromises := []
    promiseStates := []
    nextP := 0
    iterEnvsCalls := []
    refreshStartedFires := 0
    refreshes := [] }

def pState (s : SvcState) (p : PId) : POutcome :=
  pLookup s.promiseStates p

/-- `return this.refreshPromises.get(query) ?? this.refreshPromises.get(undefined);` -/
def getRefreshPromiseForQuery (s : SvcState) (q : Option Query) : Option PId :=
  match mapGet s.refreshPromises q with
  | some p => some p
  | none => mapGet s.refreshPromises none

/-- The synchronous prefix of `startRefresh`: create the deferred, register
it in `refreshPromises` under the query key (before any suspension point),
fire `refreshStarted`, call `this.locator.iterEnvs(query)` and begin the
drain.  Returns the promise of the `async` function itself — what
`triggerRefresh` hands to the caller that started the drain. -/
def startRefresh (s : SvcState) (q : Option Query) : PId × SvcState :=
  (s.nextP + 1,
    { refreshPromises := mapSet s.refreshPromises q s.nextP
      promiseStates := pSet (pSet s.promiseStates s.nextP POutcome.pending)
        (s.nextP + 1) POutcome.pending
      nextP := s.nextP + 2
      iterEnvsCalls := s.iterEnvsCalls ++ [q]
      refreshStartedFires := s.refreshStartedFires + 1
      refreshes := s.refreshes ++ [{ query := q, deferredP := s.nextP, chainP := s.nextP + 1 }] })

/-- `triggerRefresh(query)`: return the tracked handle (exact query first,
else the universal one) if present, otherwise start a refresh. -/
def triggerRefresh (s : SvcState) (q : Option Query) : PId × SvcState :=
  match getRefreshPromiseForQuery s q with
  | some p => (p, s)
  | none => startRefresh s q

/-- The settlement handlers installed by `startRefresh` on the drain's
promise, run when that promise settles with outcome `ok`:

  * on fulfilment: `deferred.resolve(); this.refreshPromises.delete(query);`
    (then telemetry), after which the `async` function's own promise
    fulfils;
  * on rejection: `.catch((ex) => deferred.reject(ex))` — the deferred is
    rejected, the tracking map is left untouched, and since the `catch`
    handler returns normally the `async` function's own promise fulfils. -/
def settleRefresh (s : SvcState) (r : Refresh) (ok : Bool) : SvcState :=
  if ok then
    { s with
      promiseStates := pSet (pSet s.promiseStates r.deferredP POutcome.fulfilled)
        r.chainP POutcome.fulfilled
      refreshPromises := mapDelete s.refreshPromises r.query }
  else
    { s with
      promiseStates := pSet (pSet s.promiseStates r.deferredP POutcome.rejected)
        r.chainP POutcome.fulfilled }

/-- `get refreshPromise()`: `Promise.all` over the current values of the
tracking map — rejected as soon as any tracked promise is rejected,
fulfilled when all are fulfilled, otherwise pending. -/
def refreshPromiseOutcome (s : SvcState) : POutcome :=
  if s.refreshPromises.any (fun p => pState s p.2 == POutcome.rejected) then
    POutcome.rejected
  else if s.refreshPromises.all (fun p => pState s p.2 == POutcome.fulfilled) then
    POutcome.fulfilled
  else
    POutcome.pending

/-- Which path `resolveEnv` takes: the cached record returned directly, or
the fall-through to `this.locator.resolveEnv(path)`. -/
inductive ResolveResult where
  | cached (e : Env)
  | locatorResolve (path : String)
deriving DecidableEq, Repr

/-- `resolveEnv(executablePath)`: return the cached record only when one
exists and `this.refreshPromises.size === 0`; otherwise fall through to the
locator's direct resolve. -/
def resolveEnv (c : Cache) (s : SvcState) (path : String) : ResolveResult :=
  match c.getEnv path with
  | some e =>
    if s.refreshPromises.isEmpty then ResolveResult.cached e
    else ResolveResult.locatorResolve path
  | none => ResolveResult.locatorResolve path

/-- Result of a `getEnvs` call: the returned list, whether `traceError` was
hit, and the service state afterwards (the fire-and-forget
`triggerRefresh().ignoreErrors()` mutates the bookkeeping but its promise is
discarded, so the call returns synchronously either way). -/
structure GetEnvsResult where
  result : List Env
  errorLogged : Bool
  st : SvcState
deriving DecidableEq, Repr

/-- `getEnvs(query)`: snapshot the cache; if it is empty and no refresh is in
flight, log the error and fire-and-forget a refresh (note: with no argument,
so for the universal query); return the snapshot filtered by the query.
`filter` stands for the external `getQueryFilter` collaborator. -/
def getEnvs (filter : Query → Env → Bool) (c : Cache) (s : SvcState)
    (q : Option Query) : GetEnvsResult :=
  if c.getAllEnvs.length = 0 ∧ s.refreshPromises.isEmpty then
    { result := match q with
        | some qq => c.getAllEnvs.filter (filter qq)
        | none => c.getAllEnvs
      errorLogged := true
      st := (triggerRefresh s none).2 }
  else
    { result := match q with
        | some qq => c.getAllEnvs.filter (filter qq)
        | none => c.getAllEnvs
      errorLogged := false
      st := s }

/-! ### Map and store lemmas -/

theorem mapGet_mapSet_self (m : List (Option Query × PId)) (k : Option Query) (v : PId) :
    mapGet (mapSet m k v) k = some v := by
  induction m with
  | nil => simp [mapSet, mapGet]
  | cons hd tl ih =>
    rcases hd with ⟨k', v'⟩
    by_cases hk : k' == k
    · simp [mapSet, mapGet, hk]
    · have hk' : (k' == k) = false := by simpa using hk
      simp [mapSet, mapGet, hk', ih]

theorem mapGet_mem (m : List (Option Query × PId)) (k : Option Query) (v : PId) :
    mapGet m k = some v → (k, v) ∈ m := by
  induction m with
  | nil => simp [mapGet]
  | cons hd tl ih =>
    rcases hd with ⟨k', v'⟩
    simp only [mapGet]
    by_cases hk : k' == k
    · simp only [hk, if_true]
      intro hv
      cases hv
      have : k' = k := by simpa using hk
      subst this
      exact List.mem_cons_self _ _
    · simp only [hk, Bool.false_eq_true, if_false]
      intro hv
      exact List.mem_cons_of_mem _ (ih hv)

theorem pLookup_pSet_self (l : List (PId × POutcome)) (p : PId) (o : POutcome) :
    pLookup (pSet l p o) p = o := by
  induction l with
  | nil => simp [pSet, pLookup]
  | cons hd tl ih =>
    rcases hd with ⟨p', o'⟩
    by_cases hp : p' == p
    · simp [pSet, pLookup, hp]
    · simp only [pSet, pLookup, hp, Bool.false_eq_true, if_false]
      exact ih

theorem pLookup_pSet_other (l : List (PId × POutcome)) (p : PId) (o : POutcome)
    (p' : PId) (hne : p' ≠ p) :
    pLookup (pSet l p o) p' = pLookup l p' := by
  induction l with
  | nil => simp [pSet, pLookup, Ne.symm hne]
  | cons hd tl ih =>
    rcases hd with ⟨q, oq⟩
    by_cases hq : q == p
    · have hq' : q = p := by simpa using hq
      subst hq'
      simp [pSet, pLookup, hne, Ne.symm hne]
    · simp only [pSet, pLookup, hq, Bool.false_eq_true, if_false]
      by_cases hq2 : q == p'
      · simp [pLookup, hq2]
      · simp only [pLookup, hq2, Bool.false_eq_true, if_false]
        exact ih

/-! ### C1: deduplication of `triggerRefresh` -/

/-- The service state after one `triggerRefresh(q)` on a fresh service, for
query token `0`. -/
def oneRefreshSvc : SvcState :=
  (triggerRefresh initSvc (some 0)).2

/-- Claim C1, counterexample.  Two `triggerRefresh(q)` calls in immediate
succession do *not* return the same handle: the first call returns the
promise of the `async startRefresh` call itself (id 1), while the second
returns the tracked `deferred.promise` looked up in `refreshPromises`
(id 0).  These are distinct promise objects in the source — and they are
observably different, since on failure the tracked deferred rejects while
the `async` function's promise fulfils (its final expression is the
`.catch` handler). -/
theorem trigger_refresh_same_handle_counterexample :
    (triggerRefresh oneRefreshSvc (some 0)).1 ≠ (triggerRefresh initSvc (some 0)).1 := by
  decide

/-- Claim C1, amended.  (i) If a handle is tracked for exactly `q`, or failing
that a universal handle is tracked, `triggerRefresh(q)` returns that
existing tracked handle unchanged and starts no new drain (the state — in
particular the `iterEnvs` call log — is untouched).  (ii) Two
`triggerRefresh(q)` calls in immediate succession with no dedup candidate
start exactly one drain (`iterEnvs(q)` invoked once): the second call
returns the tracked completion signal of the refresh started by the first,
while the first call returns that same refresh's `async startRefresh`
promise — two promises of one single refresh, not one shared object.
(iii) While a universal refresh is in flight and no exact handle exists for
`q1` or `q2`, `triggerRefresh(q1)` and `triggerRefresh(q2)` both return the
universal refresh's tracked handle. -/
theorem trigger_refresh_dedup (s : SvcState) (q q1 q2 : Option Query) (p u : PId) :
    (getRefreshPromiseForQuery s q = some p → triggerRefresh s q = (p, s))
    ∧ (getRefreshPromiseForQuery s q = none →
        ((triggerRefresh (triggerRefresh s q).2 q).1 = s.nextP
          ∧ (triggerRefresh s q).1 = s.nextP + 1
          ∧ (triggerRefresh s q).2.refreshes =
              s.refreshes ++ [{ query := q, deferredP := s.nextP, chainP := s.nextP + 1 }]
          ∧ (triggerRefresh (triggerRefresh s q).2 q).2 = (triggerRefresh s q).2
          ∧ (triggerRefresh s q).2.iterEnvsCalls = s.iterEnvsCalls ++ [q]))
    ∧ (mapGet s.refreshPromises q1 = none → mapGet s.refreshPromises q2 = none →
        mapGet s.refreshPromises none = some u →
        (triggerRefresh s q1).1 = u ∧ (triggerRefresh s q1).2 = s
          ∧ (triggerRefresh s q2).1 = u ∧ (triggerRefresh s q2).2 = s) := by
  refine ⟨?_, ?_, ?_⟩
  · intro hp
    simp [triggerRefresh, hp]
  · intro hnone
    have hsecond : getRefreshPromiseForQuery (startRefresh s q).2 q = some s.nextP := by
      simp [getRefreshPromiseForQuery, startRefresh, mapGet_mapSet_self]
    refine ⟨?_, ?_, ?_, ?_, ?_⟩
    · simp [triggerRefresh, hnone, hsecond]
    · simp [triggerRefresh, hnone, startRefresh]
    · simp [triggerRefresh, hnone, startRefresh]
    · simp [triggerRefresh, hnone, hsecond]
    · simp [triggerRefresh, hnone, startRefresh]
  · intro h1 h2 hu
    have g1 : getRefreshPromiseForQuery s q1 = some u := by
      simp [getRefreshPromiseForQuery, h1, hu]
    have g2 : getRefreshPromiseForQuery s q2 = some u := by
      simp [getRefreshPromiseForQuery, h2, hu]
    simp [triggerRefresh, g1, g2]

theorem trigger_refresh_dedup_witness :
    ((triggerRefresh (triggerRefresh initSvc (some 0)).2 (some 0)).1 = 0
      ∧ (triggerRefresh initSvc (some 0)).1 = 0 + 1
      ∧ (triggerRefresh initSvc (some 0)).2.refreshes =
          [] ++ [{ query := some 0, deferredP := 0, chainP := 0 + 1 }]
      ∧ (triggerRefresh (triggerRefresh initSvc (some 0)).2 (some 0)).2 =
          (triggerRefresh initSvc (some 0)).2
      ∧ (triggerRefresh initSvc (some 0)).2.iterEnvsCalls = [] ++ [some 0])
    ∧ ((triggerRefresh (triggerRefresh initSvc none).2 (some 1)).1 = 0
        ∧ (triggerRefresh (triggerRefresh initSvc none).2 (some 1)).2 =
            (triggerRefresh initSvc none).2
        ∧ (triggerRefresh (triggerRefresh initSvc none).2 (some 2)).1 = 0
        ∧ (triggerRefresh (triggerRefresh initSvc none).2 (some 2)).2 =
            (triggerRefresh initSvc none).2) := by
  constructor
  · exact (trigger_refresh_dedup initSvc (some 0) (some 1) (some 2) 0 0).2.1 (by decide)
  · exact (trigger_refresh_dedup (triggerRefresh initSvc none).2 (some 0) (some 1) (some 2)
      0 0).2.2 (by decide) (by decide) (by decide)

/-! ### C2 and C4: the failure path of a refresh -/

/-- The state after the single refresh of `oneRefreshSvc` (tracked deferred
id 0, `async startRefresh` promise id 1) has *failed*: the drain's promise
rejected and `startRefresh`'s settlement handlers ran. -/
def failedSvc : SvcState :=
  settleRefresh oneRefreshSvc { query := some 0, deferredP := 0, chainP := 1 } false

/-- Claim C2, counterexample.  After a failed refresh for query `0`, the
completion signal (promise 0) is rejected, but — contrary to the claim —
its handle is *not* removed from the tracking map, and a subsequent
`triggerRefresh(0)` returns the failed tracked handle without starting a
new drain (the state, including the `iterEnvs` log, is unchanged).  The
settled refresh really is the one the service started (`refreshes`
check). -/
theorem refresh_failure_cleanup_counterexample :
    oneRefreshSvc.refreshes = [{ query := some 0, deferredP := 0, chainP := 1 }]
    ∧ pState failedSvc 0 = POutcome.rejected
    ∧ mapGet failedSvc.refreshPromises (some 0) = some 0
    ∧ triggerRefresh failedSvc (some 0) = (0, failedSvc) := by
  decide

/-- Claim C2, amended.  When a refresh fails, its completion signal is
rejected, but the `catch` handler does not touch the tracking map: the
handle stays tracked, and when it is the entry for its query a subsequent
`triggerRefresh` for that query returns the rejected tracked handle and
does not start a new drain. -/
theorem refresh_failure_no_cleanup (s : SvcState) (r : Refresh)
    (hne : r.deferredP ≠ r.chainP) :
    (settleRefresh s r false).refreshPromises = s.refreshPromises
    ∧ pState (settleRefresh s r false) r.deferredP = POutcome.rejected
    ∧ (mapGet s.refreshPromises r.query = some r.deferredP →
        triggerRefresh (settleRefresh s r false) r.query =
          (r.deferredP, settleRefresh s r false)) := by
  refine ⟨?_, ?_, ?_⟩
  · simp [settleRefresh]
  · simp only [settleRefresh, Bool.false_eq_true, if_false, pState]
    rw [pLookup_pSet_other _ _ _ _ hne, pLookup_pSet_self]
  · intro hget
    have hget' : getRefreshPromiseForQuery (settleRefresh s r false) r.query =
        some r.deferredP := by
      simp only [getRefreshPromiseForQuery, settleRefresh, Bool.false_eq_true, if_false]
      simp [hget]
    simp [triggerRefresh, hget']

theorem refresh_failure_no_cleanup_witness :
    failedSvc.refreshPromises = oneRefreshSvc.refreshPromises
    ∧ pState failedSvc 0 = POutcome.rejected
    ∧ triggerRefresh failedSvc (some 0) = (0, failedSvc) :=
  ⟨(refresh_failure_no_cleanup oneRefreshSvc
      { query := some 0, deferredP := 0, chainP := 1 } (by decide)).1,
    (refresh_failure_no_cleanup oneRefreshSvc
      { query := some 0, deferredP := 0, chainP := 1 } (by decide)).2.1,
    (refresh_failure_no_cleanup oneRefreshSvc
      { query := some 0, deferredP := 0, chainP := 1 } (by decide)).2.2 (by decide)⟩

/-- Claim C4, counterexample.  The caller whose `triggerRefresh(0)` call
started the drain received promise 1 (`startRefresh`'s own promise); after
the drain fails, that promise is *fulfilled*, not rejected — the
`.catch((ex) => deferred.reject(ex))` handler swallows the error from the
returned chain — so the rejection is not propagated to that caller, contrary
to the claim.  The tracked deferred (promise 0) does reject. -/
theorem rejection_propagation_counterexample :
    (triggerRefresh initSvc (some 0)).1 = 1
    ∧ pState failedSvc 1 = POutcome.fulfilled
    ∧ pState failedSvc 0 = POutcome.rejected := by
  decide

/-- Claim C4, amended.  When a refresh's drain or validation fails, the
rejection reaches every holder of the tracked completion signal — i.e. the
callers whose `triggerRefresh` deduplicated onto the handle — and
`refreshPromise` (the join over the tracking map) rejects, since the failed
handle is still tracked; but the promise returned to the caller whose
`triggerRefresh` started the drain fulfils, because `startRefresh` returns
the `.catch` chain and the handler swallows the error. -/
theorem rejection_propagation (s : SvcState) (r : Refresh)
    (hne : r.deferredP ≠ r.chainP)
    (htracked : mapGet s.refreshPromises r.query = some r.deferredP) :
    pState (settleRefresh s r false) r.deferredP = POutcome.rejected
    ∧ pState (settleRefresh s r false) r.chainP = POutcome.fulfilled
    ∧ refreshPromiseOutcome (settleRefresh s r false) = POutcome.rejected := by
  have hdef : pState (settleRefresh s r false) r.deferredP = POutcome.rejected := by
    simp only [settleRefresh, Bool.false_eq_true, if_false, pState]
    rw [pLookup_pSet_other _ _ _ _ hne, pLookup_pSet_self]
  refine ⟨hdef, ?_, ?_⟩
  · simp only [settleRefresh, Bool.false_eq_true, if_false, pState]
    rw [pLookup_pSet_self]
  · have hmem : (r.query, r.deferredP) ∈ (settleRefresh s r false).refreshPromises := by
      have : (settleRefresh s r false).refreshPromises = s.refreshPromises := by
        simp [settleRefresh]
      rw [this]
      exact mapGet_mem _ _ _ htracked
    unfold refreshPromiseOutcome
    rw [if_pos]
    rw [List.any_eq_true]
    exact ⟨(r.query, r.deferredP), hmem, by simp [hdef]⟩

theorem rejection_propagation_witness :
    pState failedSvc 0 = POutcome.rejected
    ∧ pState failedSvc 1 = POutcome.fulfilled
    ∧ refreshPromiseOutcome failedSvc = POutcome.rejected :=
  rejection_propagation oneRefreshSvc { query := some 0, deferredP := 0, chainP := 1 }
    (by decide) (by decide)

/-! ### C6: `resolveEnv` fast path -/

/-- Claim C6.  `resolveEnv(identity)` returns the cached record directly
exactly when the cache holds a record for that identity and the tracking
map is empty; in every other case — cache miss, or any refresh in flight
even for an identity present in the cache — it falls through to the
locator's direct `resolveEnv`. -/
theorem resolve_env_fast_path (c : Cache) (s : SvcState) (path : String) :
    (∀ e : Env, resolveEnv c s path = ResolveResult.cached e ↔
      (c.getEnv path = some e ∧ s.refreshPromises = []))
    ∧ ((c.getEnv path = none ∨ s.refreshPromises ≠ []) →
        resolveEnv c s path = ResolveResult.locatorResolve path) := by
  constructor
  · intro e
    unfold resolveEnv
    cases hget : c.getEnv path with
    | none => simp
    | some e' =>
      by_cases hemp : s.refreshPromises.isEmpty
      · have : s.refreshPromises = [] := by simpa [List.isEmpty_iff] using hemp
        simp only [hemp, if_true, this, and_true]
        constructor
        · intro h; cases h; rfl
        · intro h; cases h; rfl
      · have : s.refreshPromises ≠ [] := by simpa [List.isEmpty_iff] using hemp
        simp [hemp, this]
  · intro hcase
    unfold resolveEnv
    cases hget : c.getEnv path with
    | none => rfl
    | some e' =>
      rcases hcase with hnone | hne
      · rw [hget] at hnone; cases hnone
      · have : ¬s.refreshPromises.isEmpty := by simpa [List.isEmpty_iff] using hne
        simp [this]

theorem resolve_env_fast_path_witness :
    (resolveEnv [envA] initSvc "a" = ResolveResult.cached envA)
    ∧ (resolveEnv [envA] oneRefreshSvc "a" = ResolveResult.locatorResolve "a") :=
  ⟨((resolve_env_fast_path [envA] initSvc "a").1 envA).mpr ⟨by decide, rfl⟩,
    (resolve_env_fast_path [envA] oneRefreshSvc "a").2 (Or.inr (by decide))⟩

/-! ### C8: `getEnvs` self-heal -/

/-- Claim C8.  When `getEnvs` runs with an empty cache and an empty tracking
map, it logs the error condition, triggers exactly one new refresh (one new
`iterEnvs` call — with no argument, i.e. for the universal query — and one
`refreshStarted` firing) as a fire-and-forget side effect, and still returns
the empty result; the result is computed from the cache snapshot alone, so
the discarded refresh outcome cannot affect it.  When the cache is non-empty
or a refresh is in flight, no refresh is triggered, nothing is logged and
the state is untouched. -/
theorem get_envs_self_heal (filter : Query → Env → Bool) (c : Cache) (s : SvcState)
    (q : Option Query) :
    (c.getAllEnvs.length = 0 → s.refreshPromises = [] →
      ((getEnvs filter c s q).result = []
        ∧ (getEnvs filter c s q).errorLogged = true
        ∧ (getEnvs filter c s q).st.iterEnvsCalls = s.iterEnvsCalls ++ [none]
        ∧ (getEnvs filter c s q).st.refreshStartedFires = s.refreshStartedFires + 1))
    ∧ ((c.getAllEnvs.length ≠ 0 ∨ s.refreshPromises ≠ []) →
        ((getEnvs filter c s q).st = s ∧ (getEnvs filter c s q).errorLogged = false)) := by
  constructor
  · intro hlen hemp
    have hc : c.getAllEnvs = [] := List.length_eq_zero.mp hlen
    have hemp' : s.refreshPromises.isEmpty := by simp [List.isEmpty_iff, hemp]
    have htrig : triggerRefresh s none = startRefresh s none := by
      unfold triggerRefresh
      have : getRefreshPromiseForQuery s none = none := by
        simp [getRefreshPromiseForQuery, hemp, mapGet]
      rw [this]
    refine ⟨?_, ?_, ?_, ?_⟩
    · unfold getEnvs
      rw [if_pos ⟨hlen, hemp'⟩]
      cases q <;> simp [hc]
    · unfold getEnvs
      rw [if_pos ⟨hlen, hemp'⟩]
    · unfold getEnvs
      rw [if_pos ⟨hlen, hemp'⟩]
      simp [htrig, startRefresh]
    · unfold getEnvs
      rw [if_pos ⟨hlen, hemp'⟩]
      simp [htrig, startRefresh]
  · intro hcase
    have hnot : ¬(c.getAllEnvs.length = 0 ∧ s.refreshPromises.isEmpty) := by
      rcases hcase with h1 | h2
      · exact fun hp => h1 hp.1
      · exact fun hp => h2 (by simpa [List.isEmpty_iff] using hp.2)
    unfold getEnvs
    rw [if_neg hnot]
    exact ⟨rfl, rfl⟩

theorem get_envs_self_heal_witness :
    ((getEnvs (fun _ _ => true) [] initSvc (some 0)).result = []
      ∧ (getEnvs (fun _ _ => true) [] initSvc (some 0)).errorLogged = true
      ∧ (getEnvs (fun _ _ => true) [] initSvc (some 0)).st.iterEnvsCalls = [] ++ [none]
      ∧ (getEnvs (fun _ _ => true) [] initSvc (some 0)).st.refreshStartedFires = 0 + 1)
    ∧ ((getEnvs (fun _ _ => true) [envA] initSvc (some 0)).st = initSvc
        ∧ (getEnvs (fun _ _ => true) [envA] initSvc (some 0)).errorLogged = false) :=
  ⟨(get_envs_self_heal (fun _ _ => true) [] initSvc (some 0)).1 (by decide) rfl,
    (get_envs_self_heal (fun _ _ => true) [envA] initSvc (some 0)).2 (Or.inl (by decide))⟩

/-! ### C5: chaining a new refresh after a locator change

The constructor wires `this.locator.onChanged((event) =>
this.triggerNewRefresh().then(() => { this.fire(...) }))`.
`triggerNewRefresh` (called with no argument, so for the universal query)
looks up an in-flight handle; if one exists the new drain is scheduled with
`refreshPromise.then(() => this.startRefresh(query))`, otherwise
`startRefresh` runs synchronously inside the handler.  The episode below is
a transition system over the event loop: the environment settles the
in-flight refresh and the chained drain at arbitrary times, and promise
continuations run only when the promise they are installed on has
settled. -/

/-- Observable events of one locator-change episode. -/
inductive ChainEv where
  /-- The `onChanged` handler ran (`triggerNewRefresh` called). -/
  | handlerRun
  /-- The in-flight refresh's promise settled (fulfilled iff `ok`). -/
  | inFlightSettled (ok : Bool)
  /-- `startRefresh` ran for the new drain (`iterEnvs` invoked). -/
  | chainedStart
  /-- The chained drain settled (fulfilled iff `ok`). -/
  | chainedDrainSettled (ok : Bool)
  /-- The downstream change event was fired (`this.fire(...)`). -/
  | downstreamFire
deriving DecidableEq, Repr

/-- State of one locator-change episode.  `startCont` is the pending
`.then(() => this.startRefresh(query))` continuation; `nextP` is the fate of
`triggerNewRefresh`'s returned promise; `fireCont` is the pending
`.then(() => this.fire(...))` continuation. -/
structure ChainState where
  hasInFlight : Bool
  inFlight : POutcome
  startCont : Bool
  chainedRunning : Bool
  nextP : POutcome
  fireCont : Bool
  fired : Bool
  trace : List ChainEv
deriving DecidableEq, Repr

/-- The synchronous part of the `onChanged` handler.  With an in-flight
refresh, the new drain is only scheduled (`startCont`); with none,
`startRefresh` runs immediately, inside the handler itself. -/
def chainInit (hasInFlight : Bool) : ChainState :=
  if hasInFlight then
    { hasInFlight := true
      inFlight := POutcome.pending
      startCont := true
      chainedRunning := false
      nextP := POutcome.pending
      fireCont := true
      fired := false
      trace := [ChainEv.handlerRun] }
  else
    { hasInFlight := false
      inFlight := POutcome.fulfilled
      startCont := false
      chainedRunning := true
      nextP := POutcome.pending
      fireCont := true
      fired := false
      trace := [ChainEv.handlerRun, ChainEv.chainedStart] }

/-- Event-loop steps of the episode. -/
inductive ChainStep : ChainState → ChainState → Prop where
  /-- The environment settles the in-flight refresh. -/
  | settleInFlight (s : ChainState) (ok : Bool) :
      s.hasInFlight = true → s.inFlight = POutcome.pending →
      ChainStep s { s with
        inFlight := if ok then POutcome.fulfilled else POutcome.rejected
        trace := s.trace ++ [ChainEv.inFlightSettled ok] }
  /-- The `.then` continuation runs once the in-flight promise fulfilled:
  `startRefresh` is invoked and the chained drain begins. -/
  | runStartCont (s : ChainState) :
      s.startCont = true → s.inFlight = POutcome.fulfilled →
      ChainStep s { s with
        startCont := false
        chainedRunning := true
        trace := s.trace ++ [ChainEv.chainedStart] }
  /-- If the in-flight promise rejected, the `.then` continuation never
  runs and the rejection propagates to `triggerNewRefresh`'s promise. -/
  | propagateReject (s : ChainState) :
      s.startCont = true → s.inFlight = POutcome.rejected →
      ChainStep s { s with startCont := false, nextP := POutcome.rejected }
  /-- The chained drain settles.  `startRefresh`'s own promise fulfils for
  either outcome (its final expression is the `.catch` handler). -/
  | settleChainedDrain (s : ChainState) (ok : Bool) :
      s.chainedRunning = true →
      ChainStep s { s with
        chainedRunning := false
        nextP := POutcome.fulfilled
        trace := s.trace ++ [ChainEv.chainedDrainSettled ok] }
  /-- The `.then(() => this.fire(...))` continuation runs once
  `triggerNewRefresh`'s promise fulfilled. -/
  | runFire (s : ChainState) :
      s.fireCont = true → s.nextP = POutcome.fulfilled →
      ChainStep s { s with
        fireCont := false
        fired := true
        trace := s.trace ++ [ChainEv.downstreamFire] }

/-- States reachable from a locator-change handler invocation. -/
inductive ChainReachable : ChainState → Prop where
  | start (b : Bool) : ChainReachable (chainInit b)
  | step {s t : ChainState} : ChainReachable s → ChainStep s t → ChainReachable t

/-- Inductive invariant of the episode. -/
def chainInv (s : ChainState) : Prop :=
  (s.hasInFlight = true → ChainEv.chainedStart ∈ s.trace → s.inFlight ≠ POutcome.pending)
  ∧ (s.hasInFlight = true → s.inFlight ≠ POutcome.pending →
      ∃ ok, ChainEv.inFlightSettled ok ∈ s.trace)
  ∧ (s.nextP = POutcome.fulfilled → ∃ ok, ChainEv.chainedDrainSettled ok ∈ s.trace)
  ∧ (s.fired = true → ∃ ok, ChainEv.chainedDrainSettled ok ∈ s.trace)
  ∧ (ChainEv.downstreamFire ∈ s.trace → ∃ ok, ChainEv.chainedDrainSettled ok ∈ s.trace)

theorem chainInv_reachable {s : ChainState} (hr : ChainReachable s) : chainInv s := by
  induction hr with
  | start b =>
    cases b <;> simp [chainInit, chainInv]
  | step hr hstep ih =>
    obtain ⟨i1, i2, i3, i4, i5⟩ := ih
    cases hstep with
    | settleInFlight ok h1 h2 =>
      refine ⟨?_, ?_, ?_, ?_, ?_⟩
      · intro _ _
        cases ok <;> simp
      · intro _ _
        exact ⟨ok, by simp⟩
      · intro hn
        obtain ⟨k, hk⟩ := i3 hn
        exact ⟨k, by simp [hk]⟩
      · intro hf
        obtain ⟨k, hk⟩ := i4 hf
        exact ⟨k, by simp [hk]⟩
      · intro hmem
        simp only [List.mem_append, List.mem_singleton] at hmem
        rcases hmem with hm | hm
        · obtain ⟨k, hk⟩ := i5 hm
          exact ⟨k, by simp [hk]⟩
        · cases hm
    | runStartCont h1 h2 =>
      refine ⟨?_, ?_, ?_, ?_, ?_⟩
      · intro _ _
        simp [h2]
      · intro hh hn
        obtain ⟨k, hk⟩ := i2 hh (by simp [h2])
        exact ⟨k, by simp [hk]⟩
      · intro hn
        obtain ⟨k, hk⟩ := i3 hn
        exact ⟨k, by simp [hk]⟩
      · intro hf
        obtain ⟨k, hk⟩ := i4 hf
        exact ⟨k, by simp [hk]⟩
      · intro hmem
        simp only [List.mem_append, List.mem_singleton] at hmem
        rcases hmem with hm | hm
        · obtain ⟨k, hk⟩ := i5 hm
          exact ⟨k, by simp [hk]⟩
        · cases hm
    | propagateReject h1 h2 =>
      refine ⟨?_, ?_, ?_, ?_, ?_⟩
      · intro hh hm
        simp only []
        exact i1 hh hm
      · intro hh hn
        exact i2 hh hn
      · intro hn
        cases hn
      · intro hf
        exact i4 hf
      · intro hmem
        exact i5 hmem
    | settleChainedDrain ok h1 =>
      refine ⟨?_, ?_, ?_, ?_, ?_⟩
      · intro hh hm
        simp only [List.mem_append, List.mem_singleton] at hm
        rcases hm with hm | hm
        · exact i1 hh hm
        · cases hm
      · intro hh hn
        obtain ⟨k, hk⟩ := i2 hh hn
        exact ⟨k, by simp [hk]⟩
      · intro _
        exact ⟨ok, by simp⟩
      · intro hf
        obtain ⟨k, hk⟩ := i4 hf
        exact ⟨k, by simp [hk]⟩
      · intro hmem
        simp only [List.mem_append, List.mem_singleton] at hmem
        rcases hmem with hm | hm
        · obtain ⟨k, hk⟩ := i5 hm
          exact ⟨k, by simp [hk]⟩
        · exact ⟨ok, by simp⟩
    | runFire h1 h2 =>
      refine ⟨?_, ?_, ?_, ?_, ?_⟩
      · intro hh hm
        simp only [List.mem_append, List.mem_singleton] at hm
        rcases hm with hm | hm
        · exact i1 hh hm
        · cases hm
      · intro hh hn
        obtain ⟨k, hk⟩ := i2 hh hn
        exact ⟨k, by simp [hk]⟩
      · intro hn
        obtain ⟨k, hk⟩ := i3 hn
        exact ⟨k, by simp [hk]⟩
      · intro _
        obtain ⟨k, hk⟩ := i3 h2
        exact ⟨k, by simp [hk]⟩
      · intro hmem
        simp only [List.mem_append, List.mem_singleton] at hmem
        rcases hmem with hm | hm
        · obtain ⟨k, hk⟩ := i5 hm
          exact ⟨k, by simp [hk]⟩
        · obtain ⟨k, hk⟩ := i3 h2
          exact ⟨k, by simp [hk]⟩

/-- Claim C5.  In every reachable state of a locator-change episode: when a
refresh was in flight, the chained drain has started only if the in-flight
refresh has settled (and its settlement is on the trace); the downstream
change event has been fired only if the chained drain has settled; and when
no refresh was in flight, the new drain starts immediately, inside the
handler itself. -/
theorem locator_change_chaining (s : ChainState) (hr : ChainReachable s) :
    (s.hasInFlight = true → ChainEv.chainedStart ∈ s.trace →
      (s.inFlight ≠ POutcome.pending ∧ ∃ ok, ChainEv.inFlightSettled ok ∈ s.trace))
    ∧ (ChainEv.downstreamFire ∈ s.trace → ∃ ok, ChainEv.chainedDrainSettled ok ∈ s.trace)
    ∧ (s.fired = true → ∃ ok, ChainEv.chainedDrainSettled ok ∈ s.trace)
    ∧ (chainInit false).trace = [ChainEv.handlerRun, ChainEv.chainedStart] := by
  obtain ⟨i1, i2, i3, i4, i5⟩ := chainInv_reachable hr
  refine ⟨?_, i5, i4, by simp [chainInit]⟩
  intro hh hm
  exact ⟨i1 hh hm, i2 hh (i1 hh hm)⟩

/-- A concrete reachable state: in-flight refresh settles successfully, then
the chained drain starts. -/
def chainDemo : ChainState :=
  { hasInFlight := true
    inFlight := POutcome.fulfilled
    startCont := false
    chainedRunning := true
    nextP := POutcome.pending
    fireCont := true
    fired := false
    trace := [ChainEv.handlerRun, ChainEv.inFlightSettled true, ChainEv.chainedStart] }

theorem chainDemo_reachable : ChainReachable chainDemo := by
  have h1 : ChainReachable (chainInit true) := ChainReachable.start true
  have h2 : ChainReachable
      { hasInFlight := true
        inFlight := POutcome.fulfilled
        startCont := true
        chainedRunning := false
        nextP := POutcome.pending
        fireCont := true
        fired := false
        trace := [ChainEv.handlerRun, ChainEv.inFlightSettled true] } :=
    ChainReachable.step h1 (ChainStep.settleInFlight (chainInit true) true rfl rfl)
  exact ChainReachable.step h2 (ChainStep.runStartCont _ rfl rfl)

theorem locator_change_chaining_witness :
    chainDemo.inFlight ≠ POutcome.pending
    ∧ ∃ ok, ChainEv.inFlightSettled ok ∈ chainDemo.trace :=
  (locator_change_chaining chainDemo chainDemo_reachable).1 rfl (by decide)

end EnvsCollection

/-! ## Logging facade (the second file of the bundle)

`logVerbose`, `logError`, `logInfo`, `logWarning` all route through the
module-level `log`, which calls `logToAll([globalLogger], logLevel, args)`.
`logToAll` itself lives in the (external) `./logger` module, so a call to it
is modelled as an effect value recording the loggers, the level and the
arguments. -/

namespace Logging

/-- The facade's log levels (`LogLevel`). -/
inductive LogLevel where
  | error
  | warn
  | info
deriving DecidableEq, Repr

abbrev LoggerId := Nat

/-- The single module-level `globalLogger = createLogger()`. -/
def globalLogger : LoggerId := 0

/-- The `...args: Arguments` rest parameter. -/
abbrev Arguments := List String

/-- The effect of one `logToAll(loggers, logLevel, args)` call. -/
structure LogCall where
  loggers : List LoggerId
  level : LogLevel
  args : Arguments
deriving DecidableEq, Repr

/-- `function log(logLevel, ...args) { logToAll([globalLogger], logLevel, args); }` -/
def log (logLevel : LogLevel) (args : Arguments) : LogCall :=
  { loggers := [globalLogger], level := logLevel, args := args }

/-- `export function logVerbose(...args) { log(LogLevel.Info, ...args); }` -/
def logVerbose (args : Arguments) : LogCall :=
  log LogLevel.info args

/-- `export function logInfo(...args) { log(LogLevel.Info, ...args); }` -/
def logInfo (args : Arguments) : LogCall :=
  log LogLevel.info args

/-- Claim C10.  `logVerbose` and `logInfo` are extensionally equal: for every
argument list both produce the same logging effect, forwarding the arguments
to the global logger at `LogLevel.Info`. -/
theorem logVerbose_eq_logInfo :
    logVerbose = logInfo
    ∧ ∀ args : Arguments,
        (logVerbose args).level = LogLevel.info
        ∧ (logVerbose args).loggers = [globalLogger]
        ∧ (logVerbose args).args = args :=
  ⟨rfl, fun _ => ⟨rfl, rfl, rfl⟩⟩

end Logging
